import Mathlib

/-!
Shallow embedding of src/stomp.py: the STOMP frame value type, its
serializer, its incremental (generator-style) parser, the one-shot and
socket-driven parse entry points, and the Connection engine bookkeeping
(send counter, pending-receipt set, receive dispatch, sender loop, and
the ready/broken signal flags).  Python byte strings are `List Char`;
Python dict values that mix ints and strs are a `PyVal` sum; Python
exceptions are an explicit `PyError` sum threaded through `Except`.
-/

/-- Python byte strings, modelled as lists of characters. -/
abbrev Str := List Char

/-- Values stored in header dicts.  The program mixes Python `str` values
(produced by the wire parser) and Python `int` values (stored by
`Connection.send` and by `serialize`'s content-length population).
Python 2 equality never identifies an int with a str. -/
inductive PyVal where
  | str : Str → PyVal
  | int : Int → PyVal
deriving DecidableEq, Repr

/-- Python rendering of a header value, as done by the serializer's
format call: a str renders as itself, an int in decimal. -/
def PyVal.format : PyVal → Str
  | .str s => s
  | .int i => if i < 0 then '-' :: Nat.toDigits 10 (-i).toNat else Nat.toDigits 10 i.toNat

/-- Exceptions raised by src/stomp.py, distinguished by tag.
`invalidCommand`, `notNullTerminated`, `excessData` and `incompleteFrame`
are the ValueErrors raised at lines 232, 298, 320 and 323; `typeError` is
the TypeError Python raises for `str + int`; `indexError` is the
IndexError of indexing an empty string. -/
inductive PyError where
  | typeError
  | indexError
  | invalidCommand (cmd : Str)
  | notNullTerminated
  | excessData
  | incompleteFrame
deriving DecidableEq, Repr

/-- Header dicts: insertion-ordered association lists with unique keys. -/
abbrev Dict := List (Str × PyVal)

/-- Python `d.get(k)` / `d[k]`: the value at the first matching key. -/
def dictGet (d : Dict) (k : Str) : Option PyVal :=
  match d with
  | [] => none
  | (k', v) :: t => if k' = k then some v else dictGet t k

/-- Python `k in d`. -/
def dictContains (d : Dict) (k : Str) : Bool :=
  (dictGet d k).isSome

/-- Python `d[k] = v`: replace in place if the key exists, else append
(insertion order preserved). -/
def dictInsert (d : Dict) (k : Str) (v : PyVal) : Dict :=
  match d with
  | [] => [(k, v)]
  | (k', v') :: t => if k' = k then (k, v) :: t else (k', v') :: dictInsert t k v

/-- Python `data.lstrip(chr(10))`. -/
def pyLstripNl : Str → Str
  | [] => []
  | c :: t => if c = '\x0a' then pyLstripNl t else c :: t

/-- Boolean prefix test used by the substring search. -/
def isPfxB : Str → Str → Bool
  | [], _ => true
  | _ :: _, [] => false
  | a :: s, b :: t => a = b && isPfxB s t

/-- Index of the first occurrence of `sep` in `s` (Python `s.find(sep)`),
as an Option. -/
def findSub (sep : Str) : Str → Option Nat
  | [] => if isPfxB sep [] then some 0 else none
  | c :: t => if isPfxB sep (c :: t) then some 0 else (findSub sep t).map (· + 1)

/-- Python `sep in s`. -/
def containsSub (sep s : Str) : Bool :=
  (findSub sep s).isSome

/-- Python `s.partition(sep)`: split on the first occurrence; when `sep`
is absent, the whole string is the first component and the other two are
empty. -/
def pyPartition (sep s : Str) : Str × Str × Str :=
  match findSub sep s with
  | some i => (s.take i, sep, s.drop (i + sep.length))
  | none => (s, [], [])

/-- Python `s.split(c)` for a single-character separator: no collapsing,
and the empty string splits to a list holding one empty string. -/
def pySplit (c : Char) : Str → List Str
  | [] => [[]]
  | x :: t =>
    match pySplit c t with
    | [] => [[]]
    | s :: rest => if x = c then [] :: s :: rest else (x :: s) :: rest

/-- Python `chr(10).join(parts)`. -/
def joinNl : List Str → Str
  | [] => []
  | [s] => s
  | s :: t => s ++ '\x0a' :: joinNl t

/-- Python `s.take-slice s[:i]` with Python's negative-index semantics. -/
def pySliceTo (s : Str) (i : Int) : Str :=
  if 0 ≤ i then s.take i.toNat else s.take ((s.length : Int) + i).toNat

/-- Python `v + n` for a dict value `v` and an int literal `n`:
a TypeError when `v` is a str (the `content-length` slip at line 289). -/
def pyAddInt (v : PyVal) (n : Int) : Except PyError Int :=
  match v with
  | .int i => .ok (i + n)
  | .str _ => .error .typeError

/-- CLIENT_CMDS at line 221. -/
def CLIENT_CMDS : List Str :=
  ["SEND", "SUBSCRIBE", "UNSUBSCRIBE", "BEGIN", "COMMIT",
   "ABORT", "ACK", "NACK", "DISCONNECT", "CONNECT", "STOMP"].map String.toList

/-- SERVER_CMDS at line 224. -/
def SERVER_CMDS : List Str :=
  ["CONNECTED", "MESSAGE", "RECEIPT", "ERROR"].map String.toList

/-- ALL_CMDS at line 226 (set union, modelled as list append). -/
def ALL_CMDS : List Str := CLIENT_CMDS ++ SERVER_CMDS

/-- The STOMP frame value: command, headers, body (lines 229-234). -/
structure Frame where
  command : Str
  headers : Dict
  body : Str
deriving DecidableEq, Repr

/-- Equality of embedded outcomes is decidable. -/
instance {ε α : Type} [DecidableEq ε] [DecidableEq α] : DecidableEq (Except ε α) := fun x y =>
  match x, y with
  | .ok a, .ok b =>
    if h : a = b then isTrue (by rw [h]) else isFalse (by simp [h])
  | .error a, .error b =>
    if h : a = b then isTrue (by rw [h]) else isFalse (by simp [h])
  | .ok _, .error _ => isFalse (by simp)
  | .error _, .ok _ => isFalse (by simp)

/-- `Frame.__new__` (lines 230-234): constructing a Frame with a command
outside ALL_CMDS raises ValueError. -/
def Frame.make (command : Str) (headers : Dict) (body : Str := []) : Except PyError Frame :=
  if command ∈ ALL_CMDS then .ok ⟨command, headers, body⟩
  else .error (.invalidCommand command)

/-- The key of the content-length header. -/
def clKey : Str := "content-length".toList

/-- One rendered header line, `key : colon : value` (line 240). -/
def headerLine (kv : Str × PyVal) : Str := kv.1 ++ ':' :: kv.2.format

/-- `Frame.serialize` (lines 236-241).  Side effect first: if the body is
non-empty and content-length is absent, the headers dict gains
content-length mapped to the Python int `len(body)`.  Returns the frame
as mutated together with the emitted bytes: command, newline, the header
lines joined by newlines, two newlines, the body, and one NUL. -/
def Frame.serialize (f : Frame) : Frame × Str :=
  let hs := if f.body ≠ [] ∧ dictContains f.headers clKey = false
            then dictInsert f.headers clKey (.int (f.body.length : Int))
            else f.headers
  (⟨f.command, hs, f.body⟩,
   f.command ++ '\x0a' :: (joinNl (hs.map headerLine) ++ '\x0a' :: '\x0a' :: (f.body ++ ['\x00'])))

/-- The frame after `serialize`'s header mutation. -/
def serializeUpdate (f : Frame) : Frame := (Frame.serialize f).1

/-- The bytes emitted by `serialize`. -/
def serializeStr (f : Frame) : Str := (Frame.serialize f).2

/-- Suspension points of the `_parse_iter` generator (lines 243-312):
the phase together with the accumulated partial data (the join of the
Python `sofar` buffers). -/
inductive Phase where
  | newlines
  | command (sofar : Str)
  | headers (command : Str) (sofar : Str)
  | bodyLen (command : Str) (headers : Dict) (sofar : Str) (bytes_to_go : Int)
  | bodyNul (command : Str) (headers : Dict) (sofar : Str)
deriving DecidableEq, Repr

/-- What one resumption of the generator yields: either incomplete with a
consumed count for the current chunk and the next suspension point, or a
completed frame with the final consumed count. -/
inductive FeedResult where
  | incomplete (consumed : Nat) (next : Phase)
  | complete (frame : Frame) (consumed : Nat)
deriving DecidableEq, Repr

/-- Command of the synthetic heartbeat marker. -/
def hbCmd : Str := "HEARTBEAT".toList

/-- Body phase without a content-length header (lines 301-311): scan the
current chunk for a NUL; partition is applied to the current chunk only. -/
def runBodyNul (command : Str) (headers : Dict) (sofar : Str) (data : Str) (consumed : Nat) :
    Except PyError FeedResult :=
  if containsSub ['\x00'] data then
    let p := pyPartition ['\x00'] data
    let consumed := consumed + p.1.length + p.2.1.length
    match Frame.make command headers (sofar ++ p.1) with
    | .error e => .error e
    | .ok f => .ok (.complete f consumed)
  else .ok (.incomplete (consumed + data.length) (.bodyNul command headers (sofar ++ data)))

/-- Body phase with a numeric content-length (lines 290-300), kept
bit-for-bit including the odd loop guard `len(data) - consumed <
bytes_to_go` and the Python slice semantics.  Unreachable from the wire
(the header value is always a str there), but part of the machine. -/
def runBodyLen (command : Str) (headers : Dict) (sofar : Str) (data : Str) (consumed : Nat)
    (bytes_to_go : Int) : Except PyError FeedResult :=
  if (data.length : Int) - (consumed : Int) < bytes_to_go then
    .ok (.incomplete (consumed + data.length)
      (.bodyLen command headers (sofar ++ data) (bytes_to_go - (data.length : Int))))
  else
    let end_of_body := pySliceTo data bytes_to_go
    match end_of_body.getLast? with
    | none => .error .indexError
    | some c =>
      if c ≠ '\x00' then .error .notNullTerminated
      else
        let consumed := consumed + end_of_body.length
        match Frame.make command headers (sofar ++ end_of_body.dropLast) with
        | .error e => .error e
        | .ok f => .ok (.complete f consumed)

/-- Branch on content-length (lines 288-289): `headers[clKey] + 1` is a
TypeError whenever the stored value is a str. -/
def runBody (command : Str) (headers : Dict) (data : Str) (consumed : Nat) :
    Except PyError FeedResult :=
  match dictGet headers clKey with
  | some v =>
    match pyAddInt v 1 with
    | .error e => .error e
    | .ok bytes_to_go => runBodyLen command headers [] data consumed bytes_to_go
  | none => runBodyNul command headers [] data consumed

/-- Parse of the header block lines (lines 283-285): split on newlines,
partition each line at its first colon, last write wins per key. -/
def parseHeaderLines (header_str : Str) : Dict :=
  (pySplit '\x0a' header_str).foldl
    (fun d cur_header =>
      let p := pyPartition [':'] cur_header
      dictInsert d p.1 (.str p.2.2)) []

/-- Headers phase (lines 272-285).  The loop tests for two consecutive
newlines in the current chunk only; on success the partition runs over
the whole accumulation, and the consumed count is increased by the length
of the full header block even though earlier chunks of it were already
reported consumed. -/
def runHeaders (command : Str) (sofar : Str) (data : Str) (consumed : Nat) :
    Except PyError FeedResult :=
  if containsSub ['\x0a', '\x0a'] data then
    let all := sofar ++ data
    let p := pyPartition ['\x0a', '\x0a'] all
    let consumed := consumed + p.1.length + p.2.1.length
    runBody command (parseHeaderLines p.1) p.2.2 consumed
  else .ok (.incomplete (consumed + data.length) (.headers command (sofar ++ data)))

/-- Command phase (lines 261-270): accumulate until the current chunk
holds a newline, then partition the chunk at it. -/
def runCommand (sofar : Str) (data : Str) (consumed : Nat) : Except PyError FeedResult :=
  if containsSub ['\x0a'] data then
    let p := pyPartition ['\x0a'] data
    runHeaders (sofar ++ p.1) [] p.2.2 (consumed + p.1.length + p.2.1.length)
  else .ok (.incomplete (consumed + data.length) (.command (sofar ++ data)))

/-- Leading-newline phase (lines 250-259): strip leading newlines and
count them as consumed; if nothing is left, stay and report.  The
heartbeat test that follows the loop compares the first remaining byte
with a newline even though every leading newline was just stripped, and
its yield would first construct Frame with command HEARTBEAT, which is
not in ALL_CMDS. -/
def runNewlines (data : Str) : Except PyError FeedResult :=
  let stripped := pyLstripNl data
  let consumed := data.length - stripped.length
  match data.drop consumed with
  | [] => .ok (.incomplete consumed .newlines)
  | c :: rest =>
    if c = '\x0a' then
      match Frame.make hbCmd [] [] with
      | .error e => .error e
      | .ok f => .ok (.complete f (consumed + 1))
    else runCommand [] (c :: rest) consumed

/-- One resumption of the `_parse_iter` generator: feed one chunk to a
suspended parse and run to the next yield. -/
def feed : Phase → Str → Except PyError FeedResult
  | .newlines, data => runNewlines data
  | .command sofar, data => runCommand sofar data 0
  | .headers command sofar, data => runHeaders command sofar data 0
  | .bodyLen command headers sofar btg, data => runBodyLen command headers sofar data 0 btg
  | .bodyNul command headers sofar, data => runBodyNul command headers sofar data 0

/-- `Frame.parse` (lines 314-325): prime the generator, send the whole
buffer once, reject a consumed count other than the buffer length, then
reject an incomplete parse. -/
def Frame.parse (data : Str) : Except PyError Frame :=
  match feed .newlines data with
  | .error e => .error e
  | .ok (.complete f c) => if c ≠ data.length then .error .excessData else .ok f
  | .ok (.incomplete c _) => if c ≠ data.length then .error .excessData else .error .incompleteFrame

/-- Feed a list of chunks one at a time to a suspended parse, summing the
reported consumed counts, stopping at the first completed frame. -/
def runChunks : Phase → List Str → Except PyError (Nat × Option Frame)
  | _, [] => .ok (0, none)
  | st, c :: cs =>
    match feed st c with
    | .error e => .error e
    | .ok (.complete f n) => .ok (n, some f)
    | .ok (.incomplete n st') =>
      match runChunks st' cs with
      | .error e => .error e
      | .ok (m, r) => .ok (n + m, r)

/-- `Frame.parse_from_socket`'s loop (lines 327-337) over a socket whose
pending bytes are `buf`: peek up to 4096 bytes without consuming, feed
them, and only while the frame is incomplete consume the reported count
from the socket and peek again.  Returns the frame, the bytes still
pending on the socket, and the consumed counts of the incomplete
iterations; `none` when the fuel runs out (the Python loop blocks). -/
def parseFromSocketLoop : Nat → Phase → Str → Except PyError (Option (Frame × Str × List Nat))
  | 0, _, _ => .ok none
  | fuel + 1, st, buf =>
    match feed st (buf.take 4096) with
    | .error e => .error e
    | .ok (.complete f _) => .ok (some (f, buf, []))
    | .ok (.incomplete c st') =>
      match parseFromSocketLoop fuel st' (buf.drop c) with
      | .error e => .error e
      | .ok none => .ok none
      | .ok (some (f, rem, cs)) => .ok (some (f, rem, c :: cs))

/-- `Frame.parse_from_socket` (lines 327-337), starting from a freshly
primed generator. -/
def Frame.parse_from_socket (fuel : Nat) (buf : Str) :
    Except PyError (Option (Frame × Str × List Nat)) :=
  parseFromSocketLoop fuel .newlines buf

/-- The ACK frame enqueued by `_run_recv` (line 195): Frame with command
ACK, empty headers, empty body; ACK is in ALL_CMDS so construction
succeeds. -/
def ackFrame : Frame := ⟨"ACK".toList, [], []⟩

/-- Connection-state fields touched by the claims (lines 56-70):
the send counter, the subscription counter, the pending-receipt set, the
outbound queue, and an observation log of the calls made to the
registered on_message handler (the source stores the handler at line 53
and never invokes it). -/
structure Connection where
  msg_id : Nat
  sub_id : Nat
  no_receipt : List PyVal
  send_q : List Frame
  onMessageCalls : List Frame
deriving DecidableEq, Repr

/-- A fresh connection's counters and containers (lines 56-70). -/
def Connection.init : Connection :=
  ⟨0, 0, [], [], []⟩

/-- `Connection.send` (lines 73-85): headers with the destination and the
receipt set to the Python int `msg_id`, the id added to the
pending-receipt set, the counter bumped, extra headers merged in, and a
SEND frame enqueued (SEND is in ALL_CMDS so construction succeeds). -/
def Connection.send (self : Connection) (destination : Str) (body : Str := [])
    (extra_headers : Dict := []) : Connection :=
  let headers : Dict :=
    [("destination".toList, .str destination), ("receipt".toList, .int (self.msg_id : Int))]
  let no_receipt :=
    if PyVal.int (self.msg_id : Int) ∈ self.no_receipt then self.no_receipt
    else self.no_receipt ++ [PyVal.int (self.msg_id : Int)]
  let headers := extra_headers.foldl (fun d kv => dictInsert d kv.1 kv.2) headers
  { self with
      msg_id := self.msg_id + 1
      no_receipt := no_receipt
      send_q := self.send_q ++ [⟨"SEND".toList, headers, body⟩] }

/-- Dispatch of one received frame by `_run_recv` (lines 189-201):
HEARTBEAT is discarded; a MESSAGE with an ack header enqueues an ACK
frame; a RECEIPT whose receipt-id value is a member of the
pending-receipt set removes it; ERROR does nothing.  No branch invokes
the stored on_message handler. -/
def runRecvStep (self : Connection) (cur : Frame) : Connection :=
  let self :=
    if cur.command = "MESSAGE".toList then
      if dictContains cur.headers "ack".toList then
        { self with send_q := self.send_q ++ [ackFrame] }
      else self
    else self
  if cur.command = "RECEIPT".toList then
    match dictGet cur.headers "receipt-id".toList with
    | some v =>
      if v ∈ self.no_receipt then { self with no_receipt := self.no_receipt.erase v }
      else self
    | none => self
  else self

/-- The sender loop `_run_send` (lines 168-181) driven by a list of write
outcomes, one per attempted transmission of the head frame: serialize
(which may mutate the frame's headers), write; on success dequeue and
record the transmission, on a socket error leave the queue alone and
retry the same head on the next outcome (after the reconnect).  An empty
queue blocks the worker in peek.  Returns the final queue and the
transmitted frames in order. -/
def senderRun : List Frame → List Bool → List Frame × List Frame
  | q, [] => (q, [])
  | [], _ :: _ => ([], [])
  | f :: rest, ok :: outs =>
    if ok then
      let r := senderRun rest outs
      (r.1, serializeUpdate f :: r.2)
    else senderRun (serializeUpdate f :: rest) outs

/-- The two gevent event flags of the engine (lines 59-60). -/
structure Flags where
  ready : Bool
  broken : Bool
deriving DecidableEq, Repr

/-- The atomic flag operations the workers perform. -/
inductive Op where
  | setReady
  | clearReady
  | setBroken
  | clearBroken
deriving DecidableEq, Repr

/-- Effect of one flag operation. -/
def applyOp (s : Flags) : Op → Flags
  | .setReady => ⟨true, s.broken⟩
  | .clearReady => ⟨false, s.broken⟩
  | .setBroken => ⟨s.ready, true⟩
  | .clearBroken => ⟨s.ready, false⟩

/-- Run a sequence of flag operations. -/
def runOps (s : Flags) (ops : List Op) : Flags := ops.foldl applyOp s

/-- Flag operations of `Connection.start` (lines 127-128):
`sock_broken.set()` then `sock_ready.clear()`. -/
def startOps : List Op := [.setBroken, .clearReady]

/-- The flag-transition events a running engine performs. -/
inductive WorkerEvent where
  | senderError
  | recvError
  | reconnected
deriving DecidableEq, Repr

/-- The two-statement transition each event performs, in statement order:
sender error (lines 179-180) and receiver error (lines 205-206) clear
ready then set broken; a successful reconnect (lines 160-162) clears
broken then sets ready.  Gevent greenlets switch only at blocking calls,
so each pair runs without interleaving, but the state between its two
statements is still an instant of the execution. -/
def eventOps : WorkerEvent → List Op
  | .senderError => [.clearReady, .setBroken]
  | .recvError => [.clearReady, .setBroken]
  | .reconnected => [.clearBroken, .setReady]

/-- The flag operations of a run of the engine: the given worker events
in order. -/
def traceOps (es : List WorkerEvent) : List Op := (es.map eventOps).flatten

/-- Both gevent events start unset (lines 59-60). -/
def initFlags : Flags := ⟨false, false⟩

/-- Flags at the instant reached by executing `pre` operations after
`start()` finished. -/
def runningFlags (pre : List Op) : Flags := runOps (runOps initFlags startOps) pre

/-- Exactly one of the two flags holds. -/
def exactlyOne (s : Flags) : Prop := s.ready ≠ s.broken

instance (s : Flags) : Decidable (exactlyOne s) := by
  unfold exactlyOne; infer_instance

/-- Both flags hold. -/
def bothSet (s : Flags) : Prop := s.ready = true ∧ s.broken = true

instance (s : Flags) : Decidable (bothSet s) := by
  unfold bothSet; infer_instance

/-- One operation list is a prefix of another. -/
def isPfxOf (a b : List Op) : Prop := ∃ t, a ++ t = b

/-! Helper lemmas and claim theorems. -/

/-- Claim C1: for every valid serialized frame B and every split into
non-empty chunks, incremental parsing yields the same frame as one-shot
parsing and the consumed counts sum to the length of B.  The code
violates this: B parses in one call, but splitting B between the two
newlines that terminate the header block leaves the parser incomplete
forever with all 11 bytes reported consumed, and splitting B inside the
header block double-counts the already-reported header bytes (13
consumed for an 11-byte input). -/
theorem c1_chunked_divergence :
    Frame.parse "SEND\na:b\n\n\x00".toList =
      .ok ⟨"SEND".toList, [("a".toList, PyVal.str "b".toList)], []⟩
    ∧ "SEND\na:b\n".toList ++ "\n\x00".toList = "SEND\na:b\n\n\x00".toList
    ∧ runChunks .newlines ["SEND\na:b\n".toList, "\n\x00".toList] = .ok (11, none)
    ∧ "SEND\na:".toList ++ "b\n\n\x00".toList = "SEND\na:b\n\n\x00".toList
    ∧ runChunks .newlines ["SEND\na:".toList, "b\n\n\x00".toList] =
        .ok (13, some ⟨"SEND".toList, [("a".toList, PyVal.str "b".toList)], []⟩)
    ∧ "SEND\na:b\n\n\x00".toList.length = 11 := by
  decide

/-- Claim C3: the content-length body phase never behaves as claimed:
because the parsed header value is a Python str, the expression adding 1
to it raises TypeError before any body byte is examined, both when the
frame is properly NUL-terminated and when it is not (where the claim
expects MalformedFrame). -/
theorem c3_content_length_type_error :
    Frame.parse "MESSAGE\ncontent-length:3\n\nabcX".toList = .error .typeError
    ∧ Frame.parse "MESSAGE\ncontent-length:3\n\nabc\x00".toList = .error .typeError
    ∧ (PyError.typeError ≠ PyError.notNullTerminated) := by
  decide

/-- Claim C4: a lone newline is claimed to emit a HEARTBEAT frame with 1
byte consumed.  The code instead reports the byte consumed and stays in
the leading-newline phase waiting for more input (the heartbeat test is
dead because the leading newlines were already stripped), and the
HEARTBEAT construction would raise ValueError anyway since HEARTBEAT is
not in ALL_CMDS.  The second half of the claim does hold concretely: a
newline preceding a full frame leaves that frame's parse intact. -/
theorem c4_no_heartbeat_emitted :
    feed .newlines "\n".toList = .ok (.incomplete 1 .newlines)
    ∧ Frame.make hbCmd [] [] = .error (.invalidCommand hbCmd)
    ∧ hbCmd ∉ ALL_CMDS
    ∧ Frame.parse "\nSEND\na:b\n\n\x00".toList =
        .ok ⟨"SEND".toList, [("a".toList, PyVal.str "b".toList)], []⟩
    ∧ runChunks .newlines ["\n".toList, "SEND\na:b\n\n\x00".toList] =
        .ok (12, some ⟨"SEND".toList, [("a".toList, PyVal.str "b".toList)], []⟩) := by
  refine ⟨by decide, by decide, by decide, by decide, by decide⟩

/-- Claim C5: the receiver dispatch is claimed to hand every MESSAGE
frame to the registered on_message handler.  The code stores the handler
but never invokes it from any dispatch branch: a MESSAGE frame with an
ack header only enqueues an ACK frame, and the on_message call log stays
empty for every frame and state. -/
theorem c5_on_message_never_called :
    (runRecvStep Connection.init
      ⟨"MESSAGE".toList, [("ack".toList, .str "client".toList)], "hi".toList⟩).onMessageCalls = []
    ∧ (runRecvStep Connection.init
      ⟨"MESSAGE".toList, [("ack".toList, .str "client".toList)], "hi".toList⟩).send_q = [ackFrame]
    ∧ ∀ (st : Connection) (cur : Frame),
        (runRecvStep st cur).onMessageCalls = st.onMessageCalls := by
  refine ⟨by decide, by decide, ?_⟩
  intro st cur
  simp only [runRecvStep]
  repeat' split
  all_goals rfl

/-- Claim C7: a RECEIPT frame whose receipt-id matches a pending id is
claimed to remove it from the pending set.  send() stores the Python int
0 in the set, but the parsed receipt-id header value is the Python str
of one character 0, and int 0 never equals str 0, so the membership test
fails and the set is left unchanged. -/
theorem c7_receipt_never_removed :
    (Connection.init.send "/queue/x".toList "hello".toList []).no_receipt = [PyVal.int 0]
    ∧ Frame.parse "RECEIPT\nreceipt-id:0\n\n\x00".toList =
        .ok ⟨"RECEIPT".toList, [("receipt-id".toList, PyVal.str "0".toList)], []⟩
    ∧ (runRecvStep (Connection.init.send "/queue/x".toList "hello".toList [])
        ⟨"RECEIPT".toList, [("receipt-id".toList, PyVal.str "0".toList)], []⟩).no_receipt
        = [PyVal.int 0]
    ∧ PyVal.str "0".toList ≠ PyVal.int 0 := by
  refine ⟨by decide, by decide, by decide, by decide⟩

/-- Claim C2, counterexample: a frame with an empty headers map and empty
body (so content-length population is not involved) does not round-trip:
the serializer emits an empty header line and the parser turns it into a
header with empty key and empty value.  A frame with a non-empty body
fails the round trip altogether: the auto-populated content-length comes
back as a str and the parser raises TypeError on it. -/
theorem c2_counterexample :
    Frame.parse (Frame.serialize ⟨"SEND".toList, [], []⟩).2 =
      .ok ⟨"SEND".toList, [(([] : Str), PyVal.str [])], []⟩
    ∧ (⟨"SEND".toList, [(([] : Str), PyVal.str [])], []⟩ : Frame) ≠ ⟨"SEND".toList, [], []⟩
    ∧ dictGet [(([] : Str), PyVal.str [])] clKey = none
    ∧ Frame.parse (Frame.serialize ⟨"SEND".toList,
        [("destination".toList, PyVal.str "/q".toList)], "x".toList⟩).2 = .error .typeError := by
  refine ⟨by decide, by decide, by decide, by decide⟩

/-- Claim C6, counterexample: a frame with zero headers does not
serialize to command, newline, newline, body, NUL; the join of zero
header lines still gets the two-newline terminator appended after the
command's own newline, leaving three consecutive newlines. -/
theorem c6_counterexample :
    serializeStr ⟨"SEND".toList, [], []⟩ = "SEND\n\n\n\x00".toList
    ∧ serializeStr ⟨"SEND".toList, [], []⟩ ≠
        "SEND".toList ++ '\x0a' :: '\x0a' :: (([] : Str) ++ ['\x00']) := by
  refine ⟨by decide, by decide⟩

/-- Claim C8, counterexample: the instant inside a sender-error
transition right after a successful reconnect is reachable while the
engine is running, and at that instant both flags are clear, refuting
that exactly one of ready and broken holds at every instant. -/
theorem c8_counterexample :
    isPfxOf (eventOps .reconnected ++ [Op.clearReady])
      (traceOps [.reconnected, .senderError])
    ∧ ¬ exactlyOne (runningFlags (eventOps .reconnected ++ [Op.clearReady])) := by
  exact ⟨⟨[Op.setBroken], by decide⟩, by decide⟩

/-- The newline-join of a non-empty list of parts, followed by one more
newline, equals the concatenation of the parts each followed by a
newline. -/
theorem joinNl_flatten (ls : List Str) (r : Str) (h : ls ≠ []) :
    joinNl ls ++ '\x0a' :: r = (ls.map (fun l => l ++ ['\x0a'])).flatten ++ r := by
  induction ls with
  | nil => exact absurd rfl h
  | cons l t ih =>
    cases t with
    | nil =>
      have hone : joinNl [l] = l := rfl
      rw [hone]
      simp
    | cons l2 t2 =>
      have hstep : joinNl (l :: l2 :: t2) = l ++ '\x0a' :: joinNl (l2 :: t2) := rfl
      have ih2 := ih (by simp)
      rw [hstep]
      simp only [List.map_cons, List.flatten_cons, List.append_assoc, List.cons_append,
        List.singleton_append]
      rw [ih2]
      simp [List.append_assoc]

/-- Claim C6 (amended): for every Frame whose post-auto-population
headers map is non-empty, serialize emits exactly the command, a
newline, each header rendered as key, colon, value, newline in
iteration order, one blank-line newline, the body, and a single trailing
NUL.  (The zero-header case instead gets an extra newline, see the
counterexample.) -/
theorem c6_amended (f : Frame) (h : (serializeUpdate f).headers ≠ []) :
    serializeStr f =
      f.command ++ '\x0a' ::
        (((serializeUpdate f).headers.map (fun kv => headerLine kv ++ ['\x0a'])).flatten
          ++ '\x0a' :: (f.body ++ ['\x00'])) := by
  have hshape : serializeStr f = f.command ++ '\x0a' ::
      (joinNl ((serializeUpdate f).headers.map headerLine)
        ++ '\x0a' :: '\x0a' :: (f.body ++ ['\x00'])) := rfl
  rw [hshape]
  have hne : (serializeUpdate f).headers.map headerLine ≠ [] := by
    simpa using h
  rw [joinNl_flatten _ ('\x0a' :: (f.body ++ ['\x00'])) hne, List.map_map]
  rfl

/-- Witness for c6_amended at a one-header frame. -/
theorem c6_amended_witness :
    (serializeUpdate ⟨"SEND".toList, [("a".toList, PyVal.str "b".toList)], []⟩).headers ≠ []
    ∧ serializeStr ⟨"SEND".toList, [("a".toList, PyVal.str "b".toList)], []⟩ =
        "SEND".toList ++ '\x0a' ::
          (((serializeUpdate ⟨"SEND".toList, [("a".toList, PyVal.str "b".toList)], []⟩).headers.map
              (fun kv => headerLine kv ++ ['\x0a'])).flatten
            ++ '\x0a' :: (([] : Str) ++ ['\x00'])) :=
  ⟨by decide, c6_amended ⟨"SEND".toList, [("a".toList, PyVal.str "b".toList)], []⟩ (by decide)⟩

/-- Inserting a key makes the dict contain it. -/
theorem dictContains_insert (d : Dict) (k : Str) (v : PyVal) :
    dictContains (dictInsert d k v) k = true := by
  induction d with
  | nil => simp [dictInsert, dictContains, dictGet]
  | cons kv t ih =>
    obtain ⟨k', v'⟩ := kv
    by_cases h : k' = k
    · simp [dictInsert, dictContains, dictGet, h]
    · simpa [dictInsert, dictContains, dictGet, h] using ih

/-- serialize's header mutation is idempotent: content-length is
populated at most once and never overwritten. -/
theorem serializeUpdate_idem (f : Frame) :
    serializeUpdate (serializeUpdate f) = serializeUpdate f := by
  by_cases h1 : f.body = []
  · simp [serializeUpdate, Frame.serialize, h1]
  · by_cases h2 : dictContains f.headers clKey = false
    · simp [serializeUpdate, Frame.serialize, h1, h2, dictContains_insert]
    · simp [serializeUpdate, Frame.serialize, h1, h2]

/-- Over any outcome sequence, the transmitted frames are exactly the
(serialize-updated) prefix of the original queue, and the remaining
queue is exactly the corresponding suffix (its head updated at most by
content-length population). -/
theorem senderRun_spec (outs : List Bool) : ∀ (q : List Frame),
    (senderRun q outs).2 = (q.take (senderRun q outs).2.length).map serializeUpdate
    ∧ (senderRun q outs).1.map serializeUpdate =
        (q.map serializeUpdate).drop (senderRun q outs).2.length := by
  induction outs with
  | nil => intro q; simp [senderRun]
  | cons ok outs ih =>
    intro q
    cases q with
    | nil => simp [senderRun]
    | cons f rest =>
      cases ok with
      | true =>
        obtain ⟨h1, h2⟩ := ih rest
        simp only [senderRun]
        refine ⟨?_, ?_⟩
        · simp only [if_true, List.length_cons, List.take_succ_cons, List.map_cons,
            List.cons.injEq, true_and]
          exact h1
        · simp only [if_true, List.map_cons, List.length_cons, List.drop_succ_cons]
          exact h2
      | false =>
        have hmap : (serializeUpdate f :: rest).map serializeUpdate =
            (f :: rest).map serializeUpdate := by
          simp [List.map_cons, serializeUpdate_idem]
        obtain ⟨h1, h2⟩ := ih (serializeUpdate f :: rest)
        have e : senderRun (f :: rest) (false :: outs) =
            senderRun (serializeUpdate f :: rest) outs := rfl
        rw [e]
        refine ⟨?_, ?_⟩
        · conv_lhs => rw [h1]
          rw [List.map_take, hmap, ← List.map_take]
        · rw [h2, hmap]

/-- Claim C9: at-least-once sending.  A failed write leaves the queue
with the same frames (the head altered at most by serialize's idempotent
content-length population) and transmits nothing, so the failed head is
the next frame attempted; over any outcome sequence the transmitted
frames are exactly the in-order prefix of the original queue (nothing
lost, duplicated, or reordered) and a frame leaves the queue only by
being transmitted. -/
theorem c9_at_least_once :
    (∀ (f : Frame) (rest : List Frame) (outs : List Bool),
        senderRun (f :: rest) (false :: outs) = senderRun (serializeUpdate f :: rest) outs)
    ∧ ∀ (q : List Frame) (outs : List Bool),
        (senderRun q outs).2 = (q.take (senderRun q outs).2.length).map serializeUpdate
        ∧ (senderRun q outs).1.map serializeUpdate =
            (q.map serializeUpdate).drop (senderRun q outs).2.length :=
  ⟨fun _ _ _ => rfl, fun q outs => senderRun_spec outs q⟩

/-- Claim C10: when the socket-driven parse returns a frame, the bytes
consumed from the socket are exactly the counts reported by the
incomplete iterations, and the final peeked chunk - which completed the
frame and contains the frame's own bytes - is still pending on the
socket, so the returned remainder both equals the buffer minus the
incomplete-iteration counts and still completes the same frame when
peeked again. -/
theorem c10_peek_consume :
    ∀ (fuel : Nat) (st : Phase) (buf : Str) (f : Frame) (rem : Str) (cs : List Nat),
      parseFromSocketLoop fuel st buf = .ok (some (f, rem, cs)) →
      rem = buf.drop cs.sum
      ∧ ∃ (st' : Phase) (c' : Nat), feed st' (rem.take 4096) = .ok (.complete f c') := by
  intro fuel
  induction fuel with
  | zero =>
    intro st buf f rem cs h
    simp [parseFromSocketLoop] at h
  | succ n ih =>
    intro st buf f rem cs h
    simp only [parseFromSocketLoop] at h
    cases hfd : feed st (buf.take 4096) with
    | error e => rw [hfd] at h; simp at h
    | ok r =>
      rw [hfd] at h
      cases r with
      | complete f0 c0 =>
        simp only [Except.ok.injEq, Option.some.injEq, Prod.mk.injEq] at h
        obtain ⟨hf, hrem, hcs⟩ := h
        subst hf; subst hrem; subst hcs
        exact ⟨by simp, st, c0, hfd⟩
      | incomplete c0 st0 =>
        dsimp only at h
        cases hrec : parseFromSocketLoop n st0 (buf.drop c0) with
        | error e => rw [hrec] at h; simp at h
        | ok o =>
          rw [hrec] at h
          cases o with
          | none => simp at h
          | some trip =>
            obtain ⟨f2, rem2, cs2⟩ := trip
            simp only [Except.ok.injEq, Option.some.injEq, Prod.mk.injEq] at h
            obtain ⟨hf, hrem, hcs⟩ := h
            obtain ⟨ih1, ih2⟩ := ih st0 (buf.drop c0) f2 rem2 cs2 hrec
            subst hf; subst hrem; subst hcs
            refine ⟨?_, ih2⟩
            rw [ih1, List.drop_drop, List.sum_cons]

/-- Witness for c10_peek_consume: a frame completing on the first peek
consumes nothing from the socket. -/
theorem c10_witness :
    ("SEND\na:b\n\n\x00".toList = "SEND\na:b\n\n\x00".toList.drop (([] : List Nat)).sum)
    ∧ ∃ (st' : Phase) (c' : Nat),
        feed st' ("SEND\na:b\n\n\x00".toList.take 4096) =
          .ok (.complete ⟨"SEND".toList, [("a".toList, PyVal.str "b".toList)], []⟩ c') :=
  c10_peek_consume 1 .newlines "SEND\na:b\n\n\x00".toList
    ⟨"SEND".toList, [("a".toList, PyVal.str "b".toList)], []⟩
    "SEND\na:b\n\n\x00".toList [] (by decide)

/-- A prefix of a two-element operation list is nothing, the first
operation, or both. -/
theorem isPfxOf_pair (p : List Op) (a b : Op) (h : isPfxOf p [a, b]) :
    p = [] ∨ p = [a] ∨ p = [a, b] := by
  obtain ⟨t, ht⟩ := h
  cases p with
  | nil => exact Or.inl rfl
  | cons x p' =>
    cases p' with
    | nil =>
      simp only [List.cons_append, List.nil_append, List.cons.injEq] at ht
      exact Or.inr (Or.inl (by rw [ht.1]))
    | cons y p'' =>
      cases p'' with
      | nil =>
        simp only [List.cons_append, List.nil_append, List.cons.injEq] at ht
        obtain ⟨hx, hy, ht⟩ := ht
        exact Or.inr (Or.inr (by rw [hx, hy]))
      | cons z p3 =>
        exfalso
        have hlen := congrArg List.length ht
        rw [List.length_append] at hlen
        simp only [List.length_cons, List.length_nil] at hlen
        omega

/-- A prefix of a concatenation is a prefix of the first part or extends
it by a prefix of the second. -/
theorem isPfxOf_split (p a b : List Op) (h : isPfxOf p (a ++ b)) :
    isPfxOf p a ∨ ∃ q, p = a ++ q ∧ isPfxOf q b := by
  induction a generalizing p with
  | nil =>
    right
    exact ⟨p, rfl, h⟩
  | cons x a' ih =>
    cases p with
    | nil => exact Or.inl ⟨x :: a', rfl⟩
    | cons y p' =>
      obtain ⟨t, ht⟩ := h
      simp only [List.cons_append, List.cons.injEq] at ht
      obtain ⟨hy, ht'⟩ := ht
      subst hy
      rcases ih p' ⟨t, ht'⟩ with ⟨t2, ht2⟩ | ⟨q, hq, hqp⟩
      · exact Or.inl ⟨t2, by rw [List.cons_append, ht2]⟩
      · exact Or.inr ⟨q, by rw [List.cons_append, hq], hqp⟩

/-- Running operations over a concatenation composes. -/
theorem runOps_append (s : Flags) (a b : List Op) :
    runOps s (a ++ b) = runOps (runOps s a) b :=
  List.foldl_append _ _ _ _

/-- From a state with exactly one flag set, each worker transition pair
ends with exactly one flag set, and no instant inside the pair has both
flags set. -/
theorem event_pair_safe (s : Flags) (e : WorkerEvent) (hs : exactlyOne s) :
    exactlyOne (runOps s (eventOps e))
    ∧ ∀ p, isPfxOf p (eventOps e) → ¬ bothSet (runOps s p) := by
  obtain ⟨r, b⟩ := s
  have hcases : (r = true ∧ b = false) ∨ (r = false ∧ b = true) := by
    cases r <;> cases b <;> simp_all [exactlyOne]
  cases e <;>
    rcases hcases with ⟨hr, hb⟩ | ⟨hr, hb⟩ <;>
    subst hr <;> subst hb <;>
    refine ⟨by decide, ?_⟩ <;>
    intro p hp <;>
    rcases isPfxOf_pair p _ _ hp with h | h | h <;>
    subst h <;> decide

/-- From a state with exactly one flag set, every instant of a worker
event trace avoids both-set, and after the full trace exactly one flag
is set again. -/
theorem trace_safe : ∀ (es : List WorkerEvent) (s : Flags), exactlyOne s →
    (∀ pre, isPfxOf pre ((es.map eventOps).flatten) → ¬ bothSet (runOps s pre))
    ∧ exactlyOne (runOps s ((es.map eventOps).flatten)) := by
  intro es
  induction es with
  | nil =>
    intro s hs
    refine ⟨?_, ?_⟩
    · intro pre hpre
      obtain ⟨t, ht⟩ := hpre
      have hp : pre = [] := by
        cases pre with
        | nil => rfl
        | cons x p' => simp at ht
      subst hp
      intro hb
      have hb' : s.ready = true ∧ s.broken = true := hb
      exact hs (by rw [hb'.1, hb'.2])
    · simpa [runOps] using hs
  | cons e es ih =>
    intro s hs
    have hflat : ((e :: es).map eventOps).flatten = eventOps e ++ (es.map eventOps).flatten := by
      simp
    obtain ⟨hone, hpair⟩ := event_pair_safe s e hs
    obtain ⟨ih1, ih2⟩ := ih (runOps s (eventOps e)) hone
    refine ⟨?_, ?_⟩
    · intro pre hpre
      rw [hflat] at hpre
      rcases isPfxOf_split pre _ _ hpre with hl | ⟨q, hq, hqpfx⟩
      · exact hpair pre hl
      · subst hq
        rw [runOps_append]
        exact ih1 q hqpfx
    · rw [hflat, runOps_append]
      exact ih2

/-- Claim C8 (amended): while the engine is running, the flags are never
both set at any instant, and at every worker-transition boundary exactly
one of ready and broken is set; only strictly inside a two-statement
transition window can both be clear (see the counterexample). -/
theorem c8_amended (es : List WorkerEvent) (pre : List Op)
    (h : isPfxOf pre (traceOps es)) :
    ¬ bothSet (runningFlags pre) ∧ exactlyOne (runningFlags (traceOps es)) := by
  have hs0 : exactlyOne (runOps initFlags startOps) := by decide
  obtain ⟨h1, h2⟩ := trace_safe es (runOps initFlags startOps) hs0
  exact ⟨h1 pre h, h2⟩

/-- Witness for c8_amended at the instant after the reconnect pair's
first statement. -/
theorem c8_amended_witness :
    ¬ bothSet (runningFlags [Op.clearBroken])
    ∧ exactlyOne (runningFlags (traceOps [WorkerEvent.reconnected])) :=
  c8_amended [WorkerEvent.reconnected] [Op.clearBroken] ⟨[Op.setReady], by decide⟩

/-- The first occurrence of a single-character separator after a
separator-free part is right after that part. -/
theorem findSub_char_append (c : Char) (a b : Str) (h : c ∉ a) :
    findSub [c] (a ++ c :: b) = some a.length := by
  induction a with
  | nil => simp [findSub, isPfxB]
  | cons x a' ih =>
    have hx : c ≠ x := fun he => h (by rw [he]; exact List.mem_cons_self x a')
    have h' : c ∉ a' := fun hm => h (List.mem_cons_of_mem _ hm)
    have hcond : isPfxB [c] (x :: (a' ++ c :: b)) = false := by
      simp [isPfxB, hx]
    simp [findSub, hcond, ih h']

/-- Searching for the double newline past a newline-free part shifts the
found index by that part's length. -/
theorem findSub_nn_shift (a s : Str) (h : '\x0a' ∉ a) :
    findSub ['\x0a', '\x0a'] (a ++ s) = (findSub ['\x0a', '\x0a'] s).map (· + a.length) := by
  induction a with
  | nil =>
    cases hv : findSub ['\x0a', '\x0a'] s <;> simp [hv]
  | cons x a' ih =>
    have hx : '\x0a' ≠ x := fun he => h (by rw [he]; exact List.mem_cons_self x a')
    have h' : '\x0a' ∉ a' := fun hm => h (List.mem_cons_of_mem _ hm)
    have hcond : isPfxB ['\x0a', '\x0a'] (x :: (a' ++ s)) = false := by
      simp [isPfxB, hx]
    have hstep : findSub ['\x0a', '\x0a'] ((x :: a') ++ s) =
        (findSub ['\x0a', '\x0a'] (a' ++ s)).map (· + 1) := by
      simp only [List.cons_append, findSub, List.append_eq]
      rw [hcond]
      simp
    rw [hstep, ih h']
    cases hv : findSub ['\x0a', '\x0a'] s <;> simp [Nat.add_assoc]

/-- The join of a non-empty-parts list starts with its first part. -/
theorem joinNl_cons_eq (l : Str) (ls : List Str) : ∃ z, joinNl (l :: ls) = l ++ z := by
  cases ls with
  | nil => exact ⟨[], by simp [joinNl]⟩
  | cons l2 ls2 => exact ⟨'\x0a' :: joinNl (l2 :: ls2), rfl⟩

/-- In the newline-join of non-empty newline-free lines followed by the
double-newline terminator, the first double newline is exactly at the
end of the join. -/
theorem findSub_nn_join (lines : List Str) (b : Str)
    (h : ∀ l ∈ lines, l ≠ [] ∧ '\x0a' ∉ l) :
    findSub ['\x0a', '\x0a'] (joinNl lines ++ '\x0a' :: '\x0a' :: b) =
      some (joinNl lines).length := by
  induction lines with
  | nil => simp [joinNl, findSub, isPfxB]
  | cons l ls ih =>
    cases ls with
    | nil =>
      have hl := h l (List.mem_cons_self l [])
      have hone : joinNl [l] = l := rfl
      rw [hone, findSub_nn_shift l _ hl.2]
      simp [findSub, isPfxB]
    | cons l2 ls2 =>
      have hl := h l (List.mem_cons_self _ _)
      have hstep : joinNl (l :: l2 :: ls2) = l ++ '\x0a' :: joinNl (l2 :: ls2) := rfl
      have hih := ih (fun x hx => h x (List.mem_cons_of_mem _ hx))
      have hl2 := h l2 (by simp)
      obtain ⟨z, hz⟩ := joinNl_cons_eq l2 ls2
      have hhead : isPfxB ['\x0a', '\x0a']
          ('\x0a' :: (joinNl (l2 :: ls2) ++ '\x0a' :: '\x0a' :: b)) = false := by
        cases hl2c : l2 with
        | nil => exact absurd hl2c hl2.1
        | cons c2 l2t =>
          have hc2 : '\x0a' ≠ c2 := fun he => hl2.2 (by rw [hl2c, ← he]; exact List.mem_cons_self _ _)
          rw [hl2c] at hz
          rw [hz]
          simp [isPfxB, hc2, List.cons_append]
      rw [hstep, List.append_assoc, List.cons_append]
      rw [findSub_nn_shift l _ hl.2]
      have hinner : findSub ['\x0a', '\x0a'] ('\x0a' :: (joinNl (l2 :: ls2) ++ '\x0a' :: '\x0a' :: b)) =
          some ((joinNl (l2 :: ls2)).length + 1) := by
        simp only [findSub]
        rw [hhead, hih]
        simp
      rw [hinner]
      have hred : Option.map (· + l.length) (some ((joinNl (l2 :: ls2)).length + 1)) =
          some ((joinNl (l2 :: ls2)).length + 1 + l.length) := rfl
      rw [hred]
      simp only [List.length_append, List.length_cons]
      congr 1
      omega

/-- pySplit never returns the empty list. -/
theorem pySplit_ne_nil (c : Char) (s : Str) : pySplit c s ≠ [] := by
  cases s with
  | nil => simp [pySplit]
  | cons x t =>
    simp only [pySplit]
    cases hps : pySplit c t with
    | nil => simp
    | cons s0 rest =>
      dsimp only
      split <;> simp

/-- Splitting a separator-free string yields that string alone. -/
theorem pySplit_no_sep (c : Char) (l : Str) (h : c ∉ l) : pySplit c l = [l] := by
  induction l with
  | nil => rfl
  | cons x t ih =>
    have hx : x ≠ c := fun he => h (by rw [← he]; exact List.mem_cons_self x t)
    have ht : c ∉ t := fun hm => h (List.mem_cons_of_mem _ hm)
    simp only [pySplit, ih ht]
    simp [hx]

/-- Splitting past a separator-free part peels off that part. -/
theorem pySplit_append (c : Char) (l s : Str) (h : c ∉ l) :
    pySplit c (l ++ c :: s) = l :: pySplit c s := by
  induction l with
  | nil =>
    simp only [List.nil_append, pySplit]
    cases hps : pySplit c s with
    | nil => exact absurd hps (pySplit_ne_nil c s)
    | cons s0 rest => simp
  | cons x t ih =>
    have hx : x ≠ c := fun he => h (by rw [← he]; exact List.mem_cons_self x _)
    have ht : c ∉ t := fun hm => h (List.mem_cons_of_mem _ hm)
    have hun : pySplit c ((x :: t) ++ c :: s) =
        match pySplit c (t ++ c :: s) with
        | [] => [[]]
        | s0 :: rest => if x = c then [] :: s0 :: rest else (x :: s0) :: rest := rfl
    rw [hun, ih ht]
    simp [hx]

/-- Splitting the newline-join of newline-free lines restores the lines. -/
theorem pySplit_joinNl (lines : List Str) (h : ∀ l ∈ lines, '\x0a' ∉ l)
    (hne : lines ≠ []) : pySplit '\x0a' (joinNl lines) = lines := by
  induction lines with
  | nil => exact absurd rfl hne
  | cons l ls ih =>
    cases ls with
    | nil => exact pySplit_no_sep _ _ (h l (List.mem_cons_self _ _))
    | cons l2 ls2 =>
      have hstep : joinNl (l :: l2 :: ls2) = l ++ '\x0a' :: joinNl (l2 :: ls2) := rfl
      rw [hstep, pySplit_append _ _ _ (h l (List.mem_cons_self _ _))]
      rw [ih (fun x hx => h x (List.mem_cons_of_mem _ hx)) (by simp)]

/-- Partition at a single-character separator after a separator-free
part. -/
theorem pyPartition_char (c : Char) (a b : Str) (h : c ∉ a) :
    pyPartition [c] (a ++ c :: b) = (a, [c], b) := by
  have hf := findSub_char_append c a b h
  simp only [pyPartition, hf]
  have h1 : (a ++ c :: b).take a.length = a := List.take_left a (c :: b)
  have h2 : (a ++ c :: b).drop (a.length + 1) = b := by
    have he : a ++ c :: b = (a ++ [c]) ++ b := by simp
    rw [he]
    exact List.drop_left' (by simp)
  simp only [List.length_cons, List.length_nil, h1]
  rw [h2]

/-- Inserting a fresh key appends it. -/
theorem dictInsert_append (d : Dict) (k : Str) (v : PyVal) (h : ∀ kv ∈ d, kv.1 ≠ k) :
    dictInsert d k v = d ++ [(k, v)] := by
  induction d with
  | nil => rfl
  | cons kv t ih =>
    obtain ⟨k', v'⟩ := kv
    have hk : k' ≠ k := h (k', v') (List.mem_cons_self _ _)
    simp only [dictInsert, if_neg hk, List.cons_append, List.cons.injEq, true_and]
    exact ih (fun kv hm => h kv (List.mem_cons_of_mem _ hm))

/-- Folding the parsed header lines of a colon-free-keyed, str-valued,
duplicate-free dict back through the header-line parser rebuilds the
dict after the accumulator. -/
theorem parseHeaderLines_join (hs : Dict) (acc : Dict)
    (hk : ∀ kv ∈ hs, ':' ∉ kv.1)
    (hv : ∀ kv ∈ hs, ∃ s, kv.2 = PyVal.str s)
    (hdisj : ∀ kv ∈ hs, ∀ kv' ∈ acc, kv'.1 ≠ kv.1)
    (hnodup : (hs.map Prod.fst).Nodup) :
    (hs.map headerLine).foldl
      (fun d cur_header =>
        let p := pyPartition [':'] cur_header
        dictInsert d p.1 (.str p.2.2)) acc = acc ++ hs := by
  induction hs generalizing acc with
  | nil => simp
  | cons kv t ih =>
    obtain ⟨k, v⟩ := kv
    obtain ⟨sv, hsv⟩ := hv (k, v) (List.mem_cons_self _ _)
    have hsv' : v = PyVal.str sv := hsv
    subst hsv'
    have hk1 : ':' ∉ k := hk (k, PyVal.str sv) (List.mem_cons_self _ _)
    have hnodup' : (k :: t.map Prod.fst).Nodup := hnodup
    have hnd := List.nodup_cons.1 hnodup'
    rw [List.map_cons, List.foldl_cons]
    have hline : headerLine (k, PyVal.str sv) = k ++ ':' :: sv := rfl
    have hstep : (let p := pyPartition [':'] (headerLine (k, PyVal.str sv));
        dictInsert acc p.1 (PyVal.str p.2.2)) =
        dictInsert acc k (.str sv) := by
      show dictInsert acc (pyPartition [':'] (headerLine (k, PyVal.str sv))).1
        (PyVal.str (pyPartition [':'] (headerLine (k, PyVal.str sv))).2.2) =
        dictInsert acc k (PyVal.str sv)
      rw [hline, pyPartition_char ':' k sv hk1]
    rw [hstep]
    rw [dictInsert_append acc k (.str sv)
      (fun kv' hm => hdisj (k, PyVal.str sv) (List.mem_cons_self _ _) kv' hm)]
    have hdisj' : ∀ kv ∈ t, ∀ kv' ∈ acc ++ [(k, PyVal.str sv)], kv'.1 ≠ kv.1 := by
      intro kv hm kv' hm'
      rcases List.mem_append.1 hm' with ha | hb
      · exact hdisj kv (List.mem_cons_of_mem _ hm) kv' ha
      · rw [List.mem_singleton] at hb
        subst hb
        intro he
        have he' : k = kv.1 := he
        exact hnd.1 (by rw [he']; exact List.mem_map_of_mem Prod.fst hm)
    rw [ih (acc ++ [(k, PyVal.str sv)])
        (fun kv hm => hk kv (List.mem_cons_of_mem _ hm))
        (fun kv hm => hv kv (List.mem_cons_of_mem _ hm))
        hdisj' hnd.2]
    simp

/-- Every valid command is non-empty and newline-free. -/
theorem cmds_wf : ∀ c ∈ ALL_CMDS, c ≠ [] ∧ '\x0a' ∉ c := by decide

/-- Feeding data that does not start with a newline goes straight to the
command phase. -/
theorem runNewlines_run (c : Char) (t : Str) (h : c ≠ '\x0a') :
    runNewlines (c :: t) = runCommand [] (c :: t) 0 := by
  have hstrip : pyLstripNl (c :: t) = c :: t := by simp [pyLstripNl, h]
  simp [runNewlines, hstrip, h]

/-- The command phase on a chunk holding the full newline-free command
and its terminator: partition there and move to headers. -/
theorem runCommand_step (sofar cmdRest b : Str) (consumed : Nat) (h : '\x0a' ∉ cmdRest) :
    runCommand sofar (cmdRest ++ '\x0a' :: b) consumed =
      runHeaders (sofar ++ cmdRest) [] b (consumed + cmdRest.length + 1) := by
  have hf := findSub_char_append '\x0a' cmdRest b h
  have hc : containsSub ['\x0a'] (cmdRest ++ '\x0a' :: b) = true := by
    simp [containsSub, hf]
  have hp := pyPartition_char '\x0a' cmdRest b h
  simp only [runCommand, hc, if_true, hp]
  simp

/-- The headers phase on a chunk holding the full header block and its
double-newline terminator: partition at the terminator and move to the
body phase with the parsed header dict. -/
theorem runHeaders_step (command : Str) (lines : List Str) (b : Str) (consumed : Nat)
    (h : ∀ l ∈ lines, l ≠ [] ∧ '\x0a' ∉ l) :
    runHeaders command [] (joinNl lines ++ '\x0a' :: '\x0a' :: b) consumed =
      runBody command (parseHeaderLines (joinNl lines)) b
        (consumed + (joinNl lines).length + 2) := by
  have hf := findSub_nn_join lines b h
  have hc : containsSub ['\x0a', '\x0a'] (joinNl lines ++ '\x0a' :: '\x0a' :: b) = true := by
    simp [containsSub, hf]
  have hp : pyPartition ['\x0a', '\x0a'] (joinNl lines ++ '\x0a' :: '\x0a' :: b)
      = (joinNl lines, ['\x0a', '\x0a'], b) := by
    simp only [pyPartition, hf]
    have h1 : (joinNl lines ++ '\x0a' :: '\x0a' :: b).take (joinNl lines).length = joinNl lines :=
      List.take_left _ _
    have h2 : (joinNl lines ++ '\x0a' :: '\x0a' :: b).drop ((joinNl lines).length + 2) = b := by
      have he : joinNl lines ++ '\x0a' :: '\x0a' :: b = (joinNl lines ++ ['\x0a', '\x0a']) ++ b := by
        simp
      rw [he]
      exact List.drop_left' (by simp)
    simp only [List.length_cons, List.length_nil, h1]
    rw [h2]
  simp only [runHeaders, hc, if_true, List.nil_append, hp]
  simp

/-- The NUL-scan body phase on the single NUL terminator of an empty
body: complete the frame. -/
theorem runBodyNul_nul (command : Str) (headers : Dict) (consumed : Nat)
    (hcmd : command ∈ ALL_CMDS) :
    runBodyNul command headers [] ['\x00'] consumed =
      .ok (.complete ⟨command, headers, []⟩ (consumed + 1)) := by
  have hc : containsSub ['\x00'] ['\x00'] = true := rfl
  have hp : pyPartition ['\x00'] ['\x00'] = ([], ['\x00'], []) := rfl
  simp only [runBodyNul, hc, if_true, hp]
  simp [Frame.make, hcmd]

/-- Without a content-length header the body phase scans for NUL. -/
theorem runBody_no_cl (command : Str) (headers : Dict) (data : Str) (consumed : Nat)
    (h : dictGet headers clKey = none) :
    runBody command headers data consumed = runBodyNul command headers [] data consumed := by
  simp [runBody, h]

/-- Claim C2 (amended): the serialize/parse round trip holds for every
Frame with a valid command, a non-empty headers dict whose keys contain
no colon and no newline, whose values are strs containing no newline,
with no content-length key, and an empty body.  (A frame with empty
headers gains a spurious empty-key header on the round trip, and a frame
with a non-empty body makes the parse raise TypeError on the
auto-populated content-length; see the counterexample.) -/
theorem c2_amended (cmd : Str) (hs : Dict)
    (hcmd : cmd ∈ ALL_CMDS)
    (hne : hs ≠ [])
    (hkeys : ∀ kv ∈ hs, ':' ∉ kv.1 ∧ '\x0a' ∉ kv.1)
    (hvals : ∀ kv ∈ hs, ∃ s, kv.2 = PyVal.str s ∧ '\x0a' ∉ s)
    (hnodup : (hs.map Prod.fst).Nodup)
    (hcl : dictGet hs clKey = none) :
    Frame.parse (Frame.serialize ⟨cmd, hs, []⟩).2 = .ok ⟨cmd, hs, []⟩ := by
  have hcw : cmd ≠ [] ∧ '\x0a' ∉ cmd := cmds_wf cmd hcmd
  have hlines : ∀ l ∈ hs.map headerLine, l ≠ [] ∧ '\x0a' ∉ l := by
    intro l hl
    obtain ⟨kv, hkv, hrl⟩ := List.mem_map.1 hl
    obtain ⟨s, hsv, hnl⟩ := hvals kv hkv
    obtain ⟨hck, hkn⟩ := hkeys kv hkv
    subst hrl
    refine ⟨by simp [headerLine], ?_⟩
    intro hmem
    have hl2 : headerLine kv = kv.1 ++ ':' :: s := by
      simp [headerLine, hsv, PyVal.format]
    rw [hl2] at hmem
    rcases List.mem_append.1 hmem with h1 | h1
    · exact hkn h1
    · rcases List.mem_cons.1 h1 with h2 | h2
      · exact absurd h2 (by decide)
      · exact hnl h2
  have hmapne : hs.map headerLine ≠ [] := by
    intro hh
    exact hne (List.map_eq_nil_iff.1 hh)
  have hparse : parseHeaderLines (joinNl (hs.map headerLine)) = hs := by
    unfold parseHeaderLines
    rw [pySplit_joinNl (hs.map headerLine) (fun l hl => (hlines l hl).2) hmapne]
    have hres := parseHeaderLines_join hs []
      (fun kv h => (hkeys kv h).1)
      (fun kv h => (hvals kv h).elim fun s hp => ⟨s, hp.1⟩)
      (fun kv _ kv' h' => absurd h' (List.not_mem_nil kv'))
      hnodup
    simpa using hres
  obtain ⟨c0, cmd', hcmd0⟩ : ∃ c0 cmd', cmd = c0 :: cmd' := by
    cases hcc : cmd with
    | nil => exact absurd (hcc ▸ hcmd) (by decide)
    | cons a bb => exact ⟨a, bb, rfl⟩
  subst hcmd0
  have hc0 : c0 ≠ '\x0a' := fun he => hcw.2 (by rw [he]; exact List.mem_cons_self _ _)
  have hser : (Frame.serialize ⟨c0 :: cmd', hs, []⟩).2 =
      (c0 :: cmd') ++ '\x0a' :: (joinNl (hs.map headerLine) ++ '\x0a' :: '\x0a' :: ['\x00']) := by
    simp [Frame.serialize]
  rw [hser]
  have hmach : feed Phase.newlines
      ((c0 :: cmd') ++ '\x0a' :: (joinNl (hs.map headerLine) ++ '\x0a' :: '\x0a' :: ['\x00'])) =
      .ok (.complete ⟨c0 :: cmd', hs, []⟩
        (0 + (c0 :: cmd').length + 1 + (joinNl (hs.map headerLine)).length + 2 + 1)) := by
    have e0 : feed Phase.newlines
        ((c0 :: cmd') ++ '\x0a' :: (joinNl (hs.map headerLine) ++ '\x0a' :: '\x0a' :: ['\x00'])) =
        runNewlines
          ((c0 :: cmd') ++ '\x0a' :: (joinNl (hs.map headerLine) ++ '\x0a' :: '\x0a' :: ['\x00'])) :=
      rfl
    rw [e0, List.cons_append, runNewlines_run c0 _ hc0, ← List.cons_append]
    rw [runCommand_step [] (c0 :: cmd') _ 0 hcw.2]
    rw [List.nil_append]
    rw [runHeaders_step (c0 :: cmd') (hs.map headerLine) ['\x00'] _ hlines]
    rw [hparse]
    rw [runBody_no_cl (c0 :: cmd') hs ['\x00'] _ hcl]
    rw [runBodyNul_nul (c0 :: cmd') hs _ hcmd]
  have hlen : (0 + (c0 :: cmd').length + 1 + (joinNl (hs.map headerLine)).length + 2 + 1) =
      ((c0 :: cmd') ++ '\x0a' :: (joinNl (hs.map headerLine) ++ '\x0a' :: '\x0a' :: ['\x00'])).length := by
    simp only [List.length_append, List.length_cons, List.length_nil]
    omega
  simp only [Frame.parse, hmach, hlen]
  simp

/-- Witness for c2_amended at a one-header SEND frame. -/
theorem c2_amended_witness :
    Frame.parse (Frame.serialize ⟨"SEND".toList,
      [("destination".toList, PyVal.str "/queue/x".toList)], []⟩).2 =
      .ok ⟨"SEND".toList, [("destination".toList, PyVal.str "/queue/x".toList)], []⟩ :=
  c2_amended "SEND".toList [("destination".toList, PyVal.str "/queue/x".toList)]
    (by decide) (by decide) (by decide)
    (by
      intro kv hm
      rw [List.mem_singleton] at hm
      subst hm
      exact ⟨"/queue/x".toList, rfl, by decide⟩)
    (by decide) (by decide)
